import Mathlib

/-!
Verification of the confutil helpers (src/confutil/confutil.py).

Shallow embedding notes.

The heart of the module is a pair of cardinality-checking lookups,
get_maybe_id and get_exactly_one_id, and the upsert routine set_settings.
We model:

- record field dictionaries (Python dict mapping field name to value) as
  association lists over String keys with opaque Nat values, with the
  in-place-update semantics of Python dict assignment and dict.update;
- the external ORM model object, as far as the lookups observe it, as an
  abstract search function from a domain (a list of equality constraints,
  since the code only ever builds constraints of the shape
  (field, eq, value)) to the list of matching record identifiers;
- the record store behind a settings model concretely: a list of records
  (identifier plus field dictionary), a fresh-identifier counter, and the
  default field values that default_get over fields_get returns;
- exceptions (TooManyRecordsError, NoRecordsError, both subclasses of
  WrongNumberOfRecordsError) as an error type threaded through Except;
- the effectful calls made by set_settings (create, write, execute) both by
  their action on the store and as an ordered trace of operations, so that
  ordering and exactly-once properties of the execute call can be stated.
  execute applies the settings in the host system; it does not change the
  field values of the settings records themselves.

The opaque cr, uid and context arguments of the Python functions are
threaded unchanged through every call and never inspected, so they are
dropped from the embedding.
-/

namespace Confutil

/-- A field dictionary: finite mapping from field names to opaque values,
modelled as an association list mirroring a Python dict (first occurrence
of a key is its binding; insertion order is preserved). -/
abbrev Fields := List (String × Nat)

/-- Dictionary lookup: value bound to key k, if any. -/
def getField : Fields → String → Option Nat
  | [], _ => none
  | (k1, v) :: rest, k => if k1 = k then some v else getField rest k

/-- Python dict assignment d[k] = v: replace the binding of k in place if
present, otherwise append the new binding at the end. -/
def setField : Fields → String → Nat → Fields
  | [], k, v => [(k, v)]
  | (k1, v1) :: rest, k, v =>
    if k1 = k then (k, v) :: rest else (k1, v1) :: setField rest k v

/-- Python dict.update: apply every binding of changes in order. -/
def updateFields (fs : Fields) (changes : Fields) : Fields :=
  changes.foldl (fun acc kv => setField acc kv.1 kv.2) fs

/-- A search domain: a list of equality constraints (field, value).  The
source only ever constructs domains whose constraints use the equality
operator, so the operator component is omitted. -/
abbrev Domain := List (String × Nat)

/-- The two exception kinds raised by the lookups
(TooManyRecordsError and NoRecordsError, both subclasses of
WrongNumberOfRecordsError). -/
inductive ConfError
  | tooManyRecords
  | noRecords
deriving DecidableEq, Repr

/-- An ORM model object, as far as get_maybe_id and get_exactly_one_id
observe it: its search capability, taking a domain to the list of matching
record identifiers for the current store state.  Quantifying over Model
quantifies over every store state and filter at once. -/
structure Model where
  search : Domain → List Nat

/-- Embedding of get_maybe_id (confutil.py, lines 524 to 535):
search, raise TooManyRecordsError on more than one match, return None on
zero matches, otherwise return the sole identifier ids[0]. -/
def get_maybe_id (model : Model) (domain : Domain) : Except ConfError (Option Nat) :=
  let ids := model.search domain
  if ids.length > 1 then Except.error ConfError.tooManyRecords
  else if ids.length = 0 then Except.ok none
  else Except.ok ids.head?

/-- Embedding of get_exactly_one_id (confutil.py, lines 511 to 521):
delegate to get_maybe_id (propagating its exception), raise NoRecordsError
if it returned None, otherwise return the identifier. -/
def get_exactly_one_id (model : Model) (domain : Domain) : Except ConfError Nat :=
  match get_maybe_id model domain with
  | Except.error e => Except.error e
  | Except.ok none => Except.error ConfError.noRecords
  | Except.ok (some i) => Except.ok i

/-- A persisted record of a settings model: database identifier plus field
dictionary. -/
structure SRecord where
  rid : Nat
  fields : Fields
deriving DecidableEq, Repr

/-- The store state behind one settings model: its records, a fresh
identifier counter (database identifiers are unique and created records get
fresh ones), and the field defaults that default_get returns over the field
names listed by fields_get. -/
structure Store where
  records : List SRecord
  nextId : Nat
  defaults : Fields
deriving DecidableEq, Repr

/-- A field dictionary satisfies a domain when every equality constraint of
the domain holds of it; the empty domain matches every record. -/
def matchesDomain (fs : Fields) (d : Domain) : Bool :=
  d.all (fun c => getField fs c.1 == some c.2)

/-- The search capability of the concrete store: identifiers of the records
matching the domain, in record order. -/
def searchStore (st : Store) (d : Domain) : List Nat :=
  (st.records.filter (fun r => matchesDomain r.fields d)).map SRecord.rid

/-- The concrete store viewed as an ORM model object. -/
def storeModel (st : Store) : Model :=
  ⟨searchStore st⟩

/-- ORM create: append a record with a fresh identifier holding the given
data; return the new store and the new identifier. -/
def create_rec (st : Store) (data : Fields) : Store × Nat :=
  ({ records := st.records ++ [⟨st.nextId, data⟩],
     nextId := st.nextId + 1,
     defaults := st.defaults }, st.nextId)

/-- ORM write: update the field dictionaries of the records whose identifier
is listed, applying the changes dictionary; every other record is left
untouched. -/
def write_rec (st : Store) (ids : List Nat) (changes : Fields) : Store :=
  { records := st.records.map (fun r =>
      if ids.contains r.rid then ⟨r.rid, updateFields r.fields changes⟩ else r),
    nextId := st.nextId,
    defaults := st.defaults }

/-- A company, as far as set_settings observes it: its identifier. -/
structure Company where
  id : Nat
deriving DecidableEq, Repr

/-- The effectful ORM calls issued by set_settings, recorded as an ordered
trace.  The execute operation applies the settings in the host system and
does not change the field values of the settings records. -/
inductive Op
  | create (data : Fields) (newId : Nat)
  | write (ids : List Nat) (changes : Fields)
  | execute (ids : List Nat)
deriving DecidableEq, Repr

/-- Recognizer for the execute operation in a trace. -/
def isExec : Op → Bool
  | Op.execute _ => true
  | _ => false

/-- The domain set_settings builds:
[(company_id, eq, company.id)] if company else []. -/
def mkDomain : Option Company → Domain
  | some c => [("company_id", c.id)]
  | none => []

/-- Embedding of set_settings (confutil.py, lines 287 to 308).

Finds the settings record for the scope via get_maybe_id (propagating its
TooManyRecordsError).  If none exists, builds the creation data from the
model defaults (default_get over fields_get), overlays changes with
dict.update, sets company_id to the company identifier when a company is
given, and creates the record.  Otherwise writes changes to the found
record.  In both branches it then calls execute on the record.

Returns the result (unit, or the propagated error), the final store, and
the trace of effectful calls in order. -/
def set_settings (st : Store) (changes : Fields) (company : Option Company) :
    Except ConfError Unit × Store × List Op :=
  let domain := mkDomain company
  match get_maybe_id (storeModel st) domain with
  | Except.error e => (Except.error e, st, [])
  | Except.ok none =>
    let data0 := updateFields st.defaults changes
    let data :=
      match company with
      | some c => setField data0 "company_id" c.id
      | none => data0
    let res := create_rec st data
    (Except.ok (), res.1, [Op.create data res.2, Op.execute [res.2]])
  | Except.ok (some settingsId) =>
    (Except.ok (),
     write_rec st [settingsId] changes,
     [Op.write [settingsId] changes, Op.execute [settingsId]])

/-- The value ADD_EXISTING_ID used in one-to-many link tuples. -/
def ADD_EXISTING_ID : Nat := 4

/-- The data dictionary passed to create by create_consolidation_account
(confutil.py, lines 311 to 335).  The child_consol_ids entry is the nested
comprehension over children twice: the outer clause binds child_id, the
inner clause binds child (unused), so each child_id yields one tuple per
element of children. -/
structure ConsolAccountData where
  code : String
  name : String
  type : String
  user_type : Nat
  child_consol_ids : List (Nat × Nat × Bool)
deriving DecidableEq, Repr

/-- Builds the data dictionary of create_consolidation_account from the
resolved Root/View account type identifier and the arguments. -/
def create_consolidation_account_data (account_type_view_id : Nat)
    (code name : String) (children : List Nat) : ConsolAccountData :=
  { code := code,
    name := name,
    type := "consolidation",
    user_type := account_type_view_id,
    child_consol_ids :=
      children.flatMap (fun child_id =>
        children.map (fun _child => (ADD_EXISTING_ID, child_id, false))) }

/-- The condition under which the scope override in the create branch does
not conflict with the changes dictionary: when a company is given, changes
either lacks the company_id key or binds it to the company identifier. -/
def scopeConsistent (company : Option Company) (changes : Fields) : Prop :=
  ∀ c, company = some c →
    ∀ v, getField changes "company_id" = some v → v = c.id

end Confutil

namespace Confutil

theorem updateFields_nil (fs : Fields) : updateFields fs [] = fs := rfl

theorem updateFields_cons (fs : Fields) (kv : String × Nat) (c : Fields) :
    updateFields fs (kv :: c) = updateFields (setField fs kv.1 kv.2) c := rfl

theorem getField_setField_self (fs : Fields) (k : String) (v : Nat) :
    getField (setField fs k v) k = some v := by
  induction fs with
  | nil => simp [getField, setField]
  | cons kv rest ih =>
    obtain ⟨k1, v1⟩ := kv
    by_cases h : k1 = k
    · simp [setField, h, getField]
    · simp [setField, h, getField, ih]

theorem getField_setField_ne (fs : Fields) (k1 k : String) (v : Nat)
    (h : k1 ≠ k) : getField (setField fs k1 v) k = getField fs k := by
  induction fs with
  | nil => simp [getField, setField, h]
  | cons kv rest ih =>
    obtain ⟨k2, v2⟩ := kv
    by_cases h2 : k2 = k1
    · simp [setField, h2, getField, h]
    · by_cases h3 : k2 = k
      · subst h3
        simp [setField, h2, getField]
      · simp [setField, h2, getField, h3, ih]

theorem setField_eq_of_getField (fs : Fields) (k : String) (v : Nat)
    (h : getField fs k = some v) : setField fs k v = fs := by
  induction fs with
  | nil => simp [getField] at h
  | cons kv rest ih =>
    obtain ⟨k1, v1⟩ := kv
    by_cases h1 : k1 = k
    · subst h1
      simp [getField] at h
      simp [setField, h]
    · simp [getField, h1] at h
      simp [setField, h1, ih h]

theorem getField_eq_none_iff (c : Fields) (k : String) :
    getField c k = none ↔ k ∉ c.map Prod.fst := by
  induction c with
  | nil => simp [getField]
  | cons kv rest ih =>
    obtain ⟨k1, v1⟩ := kv
    by_cases h1 : k1 = k
    · simp [getField, h1]
    · simp [getField, h1, ih, Ne.symm h1]

theorem getField_updateFields_notMem (c : Fields) (fs : Fields) (k : String)
    (h : k ∉ c.map Prod.fst) :
    getField (updateFields fs c) k = getField fs k := by
  induction c generalizing fs with
  | nil => rfl
  | cons kv rest ih =>
    simp only [List.map_cons, List.mem_cons] at h
    push_neg at h
    rw [updateFields_cons, ih _ h.2]
    exact getField_setField_ne _ _ _ _ (Ne.symm h.1)

theorem getField_mem_nodup (c : Fields) (kv : String × Nat)
    (hnd : (c.map Prod.fst).Nodup) (hmem : kv ∈ c) :
    getField c kv.1 = some kv.2 := by
  induction c with
  | nil => simp at hmem
  | cons a rest ih =>
    simp only [List.map_cons, List.nodup_cons] at hnd
    rcases List.mem_cons.mp hmem with h | h
    · subst h
      obtain ⟨k1, v1⟩ := kv
      simp [getField]
    · obtain ⟨k1, v1⟩ := a
      by_cases h1 : k1 = kv.1
      · exfalso
        apply hnd.1
        rw [h1]
        exact List.mem_map.mpr ⟨kv, h, rfl⟩
      · simp [getField, h1, ih hnd.2 h]

theorem getField_updateFields_some (c : Fields) (fs : Fields) (k : String) (v : Nat)
    (hnd : (c.map Prod.fst).Nodup) (h : getField c k = some v) :
    getField (updateFields fs c) k = some v := by
  induction c generalizing fs with
  | nil => simp [getField] at h
  | cons a rest ih =>
    obtain ⟨k1, v1⟩ := a
    simp only [List.map_cons, List.nodup_cons] at hnd
    by_cases h1 : k1 = k
    · subst h1
      simp [getField] at h
      subst h
      rw [updateFields_cons, getField_updateFields_notMem _ _ _ hnd.1]
      exact getField_setField_self _ _ _
    · simp [getField, h1] at h
      rw [updateFields_cons]
      exact ih _ hnd.2 h

theorem updateFields_eq_self (c : Fields) (fs : Fields)
    (h : ∀ kv ∈ c, getField fs kv.1 = some kv.2) :
    updateFields fs c = fs := by
  induction c with
  | nil => rfl
  | cons a rest ih =>
    rw [updateFields_cons, setField_eq_of_getField _ _ _ (h a (List.mem_cons_self a rest))]
    exact ih fun kv hkv => h kv (List.mem_cons_of_mem a hkv)

theorem matchesDomain_nil (fs : Fields) : matchesDomain fs [] = true := rfl

theorem matchesDomain_single (fs : Fields) (k : String) (a : Nat) :
    matchesDomain fs [(k, a)] = true ↔ getField fs k = some a := by
  simp [matchesDomain]

theorem searchStore_filter_nil (st : Store) (d : Domain)
    (h : searchStore st d = []) :
    st.records.filter (fun r => matchesDomain r.fields d) = [] := by
  unfold searchStore at h
  exact List.map_eq_nil_iff.mp h

theorem searchStore_eq_nil (st : Store) (d : Domain)
    (h : searchStore st d = []) :
    ∀ r ∈ st.records, matchesDomain r.fields d = false := by
  intro r hr
  by_contra hb
  have hmem : r ∈ st.records.filter (fun r => matchesDomain r.fields d) :=
    List.mem_filter.mpr ⟨hr, by simpa using hb⟩
  rw [searchStore_filter_nil st d h] at hmem
  simp at hmem

theorem searchStore_single (st : Store) (d : Domain) (i : Nat)
    (h : searchStore st d = [i]) :
    ∃ r0, r0 ∈ st.records ∧ r0.rid = i ∧ matchesDomain r0.fields d = true ∧
      ∀ r ∈ st.records, matchesDomain r.fields d = true → r = r0 := by
  unfold searchStore at h
  rcases hf : st.records.filter (fun r => matchesDomain r.fields d) with _ | ⟨r0, rest⟩
  · rw [hf] at h
    simp at h
  · rw [hf] at h
    simp only [List.map_cons, List.cons.injEq] at h
    have hrest : rest = [] := List.map_eq_nil_iff.mp h.2
    have hr0 : r0 ∈ st.records.filter (fun r => matchesDomain r.fields d) := by
      rw [hf]
      exact List.mem_cons_self r0 rest
    have hr0m := List.mem_filter.mp hr0
    refine ⟨r0, hr0m.1, h.1, by simpa using hr0m.2, ?_⟩
    intro r hr hmatch
    have : r ∈ st.records.filter (fun r => matchesDomain r.fields d) :=
      List.mem_filter.mpr ⟨hr, by simpa using hmatch⟩
    rw [hf, hrest] at this
    simpa using this

theorem countP_le_one_of_unique {α : Type} (l : List α) (q : α → Bool) (r0 : α)
    (hnd : l.Nodup) (h : ∀ r ∈ l, q r = true → r = r0) :
    l.countP q ≤ 1 := by
  induction l with
  | nil => simp
  | cons a rest ih =>
    rw [List.nodup_cons] at hnd
    by_cases ha : q a = true
    · have ha0 : a = r0 := h a (List.mem_cons_self a rest) ha
      have hrest : rest.countP q = 0 := by
        rw [List.countP_eq_zero]
        intro r hr hq
        have hr0 : r = r0 := h r (List.mem_cons_of_mem a hr) hq
        exact hnd.1 (by rw [ha0, ← hr0]; exact hr)
      rw [List.countP_cons_of_pos _ _ ha, hrest]
    · rw [List.countP_cons_of_neg _ _ (by simpa using ha)]
      exact ih hnd.2 fun r hr hq => h r (List.mem_cons_of_mem a hr) hq

/-- C1: for every store state and filter such that the search returns
exactly one identifier, get_maybe_id returns that sole identifier (wrapped
in some) and get_exactly_one_id returns it directly; neither raises. -/
theorem claim_C1_single_match (m : Model) (d : Domain) (i : Nat)
    (h : m.search d = [i]) :
    get_maybe_id m d = Except.ok (some i) ∧
    get_exactly_one_id m d = Except.ok i := by
  have hm : get_maybe_id m d = Except.ok (some i) := by
    simp [get_maybe_id, h]
  exact ⟨hm, by simp [get_exactly_one_id, hm]⟩

/-- Witness for C1 at a concrete store whose search returns [5]. -/
theorem claim_C1_single_match_witness :
    get_maybe_id ⟨fun _ => [5]⟩ [] = Except.ok (some 5) ∧
    get_exactly_one_id ⟨fun _ => [5]⟩ [] = Except.ok 5 :=
  claim_C1_single_match ⟨fun _ => [5]⟩ [] 5 rfl

/-- C2: for every store state and filter such that the search returns zero
identifiers, get_maybe_id returns None and get_exactly_one_id raises
NoRecordsError. -/
theorem claim_C2_zero_matches (m : Model) (d : Domain)
    (h : m.search d = []) :
    get_maybe_id m d = Except.ok none ∧
    get_exactly_one_id m d = Except.error ConfError.noRecords := by
  have hm : get_maybe_id m d = Except.ok none := by
    simp [get_maybe_id, h]
  exact ⟨hm, by simp [get_exactly_one_id, hm]⟩

/-- Witness for C2 at a concrete store whose search returns []. -/
theorem claim_C2_zero_matches_witness :
    get_maybe_id ⟨fun _ => []⟩ [] = Except.ok none ∧
    get_exactly_one_id ⟨fun _ => []⟩ [] = Except.error ConfError.noRecords :=
  claim_C2_zero_matches ⟨fun _ => []⟩ [] rfl

/-- C3: for every store state and filter such that the search returns two
or more identifiers, both get_maybe_id and get_exactly_one_id raise
TooManyRecordsError; neither returns an identifier. -/
theorem claim_C3_many_matches (m : Model) (d : Domain)
    (h : 2 ≤ (m.search d).length) :
    get_maybe_id m d = Except.error ConfError.tooManyRecords ∧
    get_exactly_one_id m d = Except.error ConfError.tooManyRecords := by
  have hm : get_maybe_id m d = Except.error ConfError.tooManyRecords := by
    have h1 : (m.search d).length > 1 := h
    simp [get_maybe_id, h1]
  exact ⟨hm, by simp [get_exactly_one_id, hm]⟩

/-- Witness for C3 at a concrete store whose search returns [5, 6]. -/
theorem claim_C3_many_matches_witness :
    get_maybe_id ⟨fun _ => [5, 6]⟩ [] = Except.error ConfError.tooManyRecords ∧
    get_exactly_one_id ⟨fun _ => [5, 6]⟩ [] = Except.error ConfError.tooManyRecords :=
  claim_C3_many_matches ⟨fun _ => [5, 6]⟩ [] (by decide)

end Confutil

namespace Confutil

/-- C9: for every children list of length n, the child_consol_ids value that
create_consolidation_account passes to create contains n * n tuples, namely
n copies of (4, child_id, False) for each child_id in children: the nested
comprehension yields a cross-product-sized result rather than one tuple per
child. -/
theorem claim_C9_cross_product (t : Nat) (code name : String) (children : List Nat) :
    (create_consolidation_account_data t code name children).child_consol_ids
      = children.flatMap (fun child_id =>
          List.replicate children.length (ADD_EXISTING_ID, child_id, false)) ∧
    (create_consolidation_account_data t code name children).child_consol_ids.length
      = children.length * children.length := by
  have h1 : (create_consolidation_account_data t code name children).child_consol_ids
      = children.flatMap (fun child_id =>
          List.replicate children.length (ADD_EXISTING_ID, child_id, false)) := by
    show children.flatMap (fun child_id =>
        children.map (fun _child => (ADD_EXISTING_ID, child_id, false)))
      = children.flatMap (fun child_id =>
          List.replicate children.length (ADD_EXISTING_ID, child_id, false))
    exact congrArg (fun f => children.flatMap f)
      (funext fun child_id => List.map_const' children (ADD_EXISTING_ID, child_id, false))
  refine ⟨h1, ?_⟩
  rw [h1, List.length_flatMap]
  simp [Function.comp_def, List.map_const', List.sum_replicate, smul_eq_mul]

/-- C10: in the create branch of set_settings with a company given, the
created record's company_id is the company identifier even when the changes
dictionary itself binds company_id: the scope assignment comes after the
changes overlay and silently overrides it. -/
theorem claim_C10_scope_overrides_changes (st : Store) (changes : Fields)
    (c : Company) (v : Nat)
    (habs : searchStore st (mkDomain (some c)) = [])
    (hv : getField changes "company_id" = some v) :
    ∃ r : SRecord,
      (set_settings st changes (some c)).2.1.records = st.records ++ [r] ∧
      getField r.fields "company_id" = some c.id := by
  have hm : get_maybe_id (storeModel st) (mkDomain (some c)) = Except.ok none := by
    simp [get_maybe_id, storeModel, habs]
  refine ⟨⟨st.nextId, setField (updateFields st.defaults changes) "company_id" c.id⟩,
    ?_, getField_setField_self _ _ _⟩
  simp [set_settings, hm, create_rec]

end Confutil

namespace Confutil

/-- C5: when two or more settings records already exist for the scope,
set_settings propagates TooManyRecordsError unchanged, performs no create,
write or execute call, and leaves the store unmodified; moreover
set_settings never brings a scope from at most one record to two: if the
scope has at most one record before the call, it still has at most one
after (find-or-create, never duplicate-create). -/
theorem claim_C5_too_many_propagated (st : Store) (changes : Fields)
    (company : Option Company)
    (hrid : (st.records.map SRecord.rid).Nodup) :
    (2 ≤ (searchStore st (mkDomain company)).length →
      set_settings st changes company
        = (Except.error ConfError.tooManyRecords, st, [])) ∧
    ((searchStore st (mkDomain company)).length ≤ 1 →
      (searchStore (set_settings st changes company).2.1 (mkDomain company)).length ≤ 1) := by
  constructor
  · intro h2
    have hm : get_maybe_id (storeModel st) (mkDomain company)
        = Except.error ConfError.tooManyRecords := by
      have hgt : (searchStore st (mkDomain company)).length > 1 := h2
      simp [get_maybe_id, storeModel, hgt]
    simp [set_settings, hm]
  · intro h1
    rcases hs : searchStore st (mkDomain company) with _ | ⟨i, rest⟩
    · -- create branch: the old records keep failing the domain and the
      -- appended record is at most one more match
      have hm : get_maybe_id (storeModel st) (mkDomain company) = Except.ok none := by
        simp [get_maybe_id, storeModel, hs]
      have hfil := searchStore_filter_nil st (mkDomain company) hs
      rcases company with _ | c
      · simp only [set_settings, hm, create_rec]
        unfold searchStore
        simp only [List.filter_append, hfil, List.nil_append, List.length_map]
        exact le_trans (List.length_filter_le _ _) (by simp)
      · simp only [set_settings, hm, create_rec]
        unfold searchStore
        simp only [List.filter_append, hfil, List.nil_append, List.length_map]
        exact le_trans (List.length_filter_le _ _) (by simp)
    · have hrest : rest = [] := by
        rw [hs] at h1
        simpa using h1
      subst hrest
      have hm : get_maybe_id (storeModel st) (mkDomain company)
          = Except.ok (some i) := by
        simp [get_maybe_id, storeModel, hs]
      obtain ⟨r0, hr0mem, hr0rid, hr0match, hr0uniq⟩ :=
        searchStore_single st (mkDomain company) i hs
      have hset : set_settings st changes company
          = (Except.ok (), write_rec st [i] changes,
             [Op.write [i] changes, Op.execute [i]]) := by
        simp [set_settings, hm]
      rw [hset]
      unfold searchStore write_rec
      simp only [List.length_map, ← List.countP_eq_length_filter, List.countP_map]
      apply countP_le_one_of_unique _ _ r0 (hrid.of_map)
      intro r hr hq
      by_cases heq : r = r0
      · exact heq
      · exfalso
        have hrmatch : matchesDomain r.fields (mkDomain company) = false := by
          by_contra hb
          exact heq (hr0uniq r hr (by simpa using hb))
        have hne : r.rid ≠ i := by
          intro hri
          exact heq (List.inj_on_of_nodup_map hrid hr hr0mem (by rw [hri, hr0rid]))
        have hgr : (if ([i] : List Nat).contains r.rid
            then ⟨r.rid, updateFields r.fields changes⟩ else r) = r := by
          simp [List.contains, hne]
        rw [Function.comp] at hq
        simp only [hgr] at hq
        rw [hrmatch] at hq
        simp at hq

end Confutil

namespace Confutil

/-- C8: in every successful run of set_settings the execute call appears
exactly once in the trace of effectful calls, it is the final call (so the
run never ends with a record created or written but not finalized), and it
targets exactly the record that the single preceding create or write call
produced or updated. -/
theorem claim_C8_execute_once_after_write (st : Store) (changes : Fields)
    (company : Option Company)
    (h : (set_settings st changes company).1 = Except.ok ()) :
    ∃ i, ((set_settings st changes company).2.2.countP isExec = 1) ∧
      (set_settings st changes company).2.2.getLast? = some (Op.execute [i]) ∧
      ((∃ data, (set_settings st changes company).2.2
          = [Op.create data i, Op.execute [i]]) ∨
        (set_settings st changes company).2.2
          = [Op.write [i] changes, Op.execute [i]]) := by
  rcases hm : get_maybe_id (storeModel st) (mkDomain company) with e | mi
  · exfalso
    simp [set_settings, hm] at h
  · rcases mi with _ | i
    · have hd : ∃ data, set_settings st changes company
          = (Except.ok (), (create_rec st data).1,
             [Op.create data st.nextId, Op.execute [st.nextId]]) := by
        cases company with
        | none =>
          exact ⟨updateFields st.defaults changes, by simp [set_settings, hm, create_rec]⟩
        | some c =>
          exact ⟨setField (updateFields st.defaults changes) "company_id" c.id,
            by simp [set_settings, hm, create_rec]⟩
      obtain ⟨data, hd⟩ := hd
      refine ⟨st.nextId, ?_, ?_, Or.inl ⟨data, ?_⟩⟩ <;> rw [hd] <;> simp [isExec]
    · have hw : set_settings st changes company
          = (Except.ok (), write_rec st [i] changes,
             [Op.write [i] changes, Op.execute [i]]) := by
        simp [set_settings, hm]
      refine ⟨i, ?_, ?_, Or.inr ?_⟩ <;> rw [hw] <;> simp [isExec]

end Confutil

namespace Confutil

/-- Witness for C5 at a concrete store holding two records for company 7. -/
theorem claim_C5_too_many_propagated_witness :
    ((Store.mk [⟨1, [("company_id", 7)]⟩, ⟨2, [("company_id", 7)]⟩] 3 []).records.map
        SRecord.rid).Nodup ∧
    ((2 ≤ (searchStore ⟨[⟨1, [("company_id", 7)]⟩, ⟨2, [("company_id", 7)]⟩], 3, []⟩
          (mkDomain (some ⟨7⟩))).length →
      set_settings ⟨[⟨1, [("company_id", 7)]⟩, ⟨2, [("company_id", 7)]⟩], 3, []⟩
          [("x", 5)] (some ⟨7⟩)
        = (Except.error ConfError.tooManyRecords,
           ⟨[⟨1, [("company_id", 7)]⟩, ⟨2, [("company_id", 7)]⟩], 3, []⟩, [])) ∧
     ((searchStore ⟨[⟨1, [("company_id", 7)]⟩, ⟨2, [("company_id", 7)]⟩], 3, []⟩
          (mkDomain (some ⟨7⟩))).length ≤ 1 →
      (searchStore
          (set_settings ⟨[⟨1, [("company_id", 7)]⟩, ⟨2, [("company_id", 7)]⟩], 3, []⟩
            [("x", 5)] (some ⟨7⟩)).2.1
          (mkDomain (some ⟨7⟩))).length ≤ 1)) :=
  ⟨by decide,
   claim_C5_too_many_propagated
     ⟨[⟨1, [("company_id", 7)]⟩, ⟨2, [("company_id", 7)]⟩], 3, []⟩
     [("x", 5)] (some ⟨7⟩) (by decide)⟩

/-- Witness for C8 at a concrete empty store and global scope. -/
theorem claim_C8_execute_once_after_write_witness :
    (set_settings ⟨[], 0, [("a", 1)]⟩ [("b", 2)] none).1 = Except.ok () ∧
    (∃ i, ((set_settings ⟨[], 0, [("a", 1)]⟩ [("b", 2)] none).2.2.countP isExec = 1) ∧
      (set_settings ⟨[], 0, [("a", 1)]⟩ [("b", 2)] none).2.2.getLast?
        = some (Op.execute [i]) ∧
      ((∃ data, (set_settings ⟨[], 0, [("a", 1)]⟩ [("b", 2)] none).2.2
          = [Op.create data i, Op.execute [i]]) ∨
        (set_settings ⟨[], 0, [("a", 1)]⟩ [("b", 2)] none).2.2
          = [Op.write [i] [("b", 2)], Op.execute [i]])) :=
  ⟨rfl,
   claim_C8_execute_once_after_write ⟨[], 0, [("a", 1)]⟩ [("b", 2)] none rfl⟩

/-- Witness for C10 at a concrete empty store, company 7, and a changes
dictionary binding company_id to 99. -/
theorem claim_C10_scope_overrides_changes_witness :
    searchStore ⟨[], 0, []⟩ (mkDomain (some ⟨7⟩)) = [] ∧
    getField [("company_id", 99)] "company_id" = some 99 ∧
    (∃ r : SRecord,
      (set_settings ⟨[], 0, []⟩ [("company_id", 99)] (some ⟨7⟩)).2.1.records
        = (Store.mk [] 0 []).records ++ [r] ∧
      getField r.fields "company_id" = some (Company.mk 7).id) :=
  ⟨by decide, by decide,
   claim_C10_scope_overrides_changes ⟨[], 0, []⟩ [("company_id", 99)] ⟨7⟩ 99
     (by decide) (by decide)⟩

end Confutil

namespace Confutil

theorem get_maybe_id_some_inv (m : Model) (d : Domain) (i : Nat)
    (h : get_maybe_id m d = Except.ok (some i)) : m.search d = [i] := by
  unfold get_maybe_id at h
  rcases hs : m.search d with _ | ⟨a, rest⟩
  · rw [hs] at h
    simp at h
  · rw [hs] at h
    rcases rest with _ | ⟨b, rest2⟩
    · simp at h
      rw [h]
    · simp at h

theorem get_maybe_id_none_inv (m : Model) (d : Domain)
    (h : get_maybe_id m d = Except.ok none) : m.search d = [] := by
  unfold get_maybe_id at h
  rcases hs : m.search d with _ | ⟨a, rest⟩
  · rfl
  · rw [hs] at h
    rcases rest with _ | ⟨b, rest2⟩
    · simp at h
    · simp at h

/-- C7: a call to set_settings scoped to company A, for any distinct
company B, leaves every record scoped to B, and more generally every record
not scoped to A, unchanged and in place; at most the single settings record
for scope A is mutated. -/
theorem claim_C7_frame (st : Store) (changes : Fields) (A B : Company)
    (hAB : A.id ≠ B.id)
    (hrid : (st.records.map SRecord.rid).Nodup) :
    ∀ (j : Nat) (r : SRecord), st.records[j]? = some r →
      (getField r.fields "company_id" = some B.id ∨
        getField r.fields "company_id" ≠ some A.id) →
      (set_settings st changes (some A)).2.1.records[j]? = some r := by
  intro j r hj hcond
  have hrA : getField r.fields "company_id" ≠ some A.id := by
    rcases hcond with h | h
    · rw [h]
      intro he
      exact hAB (Option.some.inj he).symm
    · exact h
  have hjlt : j < st.records.length := (List.getElem?_eq_some_iff.mp hj).choose
  have hrmem : r ∈ st.records := List.getElem?_mem hj
  rcases hm : get_maybe_id (storeModel st) (mkDomain (some A)) with e | mi
  · simp [set_settings, hm, hj]
  · rcases mi with _ | i
    · have hrec : (set_settings st changes (some A)).2.1.records
          = st.records
            ++ [⟨st.nextId,
                 setField (updateFields st.defaults changes) "company_id" A.id⟩] := by
        simp [set_settings, hm, create_rec]
      rw [hrec, List.getElem?_append_left hjlt, hj]
    · have hs : searchStore st (mkDomain (some A)) = [i] :=
        get_maybe_id_some_inv _ _ _ hm
      obtain ⟨r0, hr0mem, hr0rid, hr0match, hr0uniq⟩ :=
        searchStore_single st _ i hs
      have hr0cid : getField r0.fields "company_id" = some A.id :=
        (matchesDomain_single r0.fields "company_id" A.id).mp
          (by simpa [mkDomain] using hr0match)
      have hne : r.rid ≠ i := by
        intro hri
        have hrr0 : r = r0 :=
          List.inj_on_of_nodup_map hrid hrmem hr0mem (by rw [hri, hr0rid])
        rw [hrr0] at hrA
        exact hrA hr0cid
      have hw : (set_settings st changes (some A)).2.1.records
          = st.records.map (fun rr => if ([i] : List Nat).contains rr.rid
              then ⟨rr.rid, updateFields rr.fields changes⟩ else rr) := by
        simp [set_settings, hm, write_rec]
      rw [hw, List.getElem?_map, hj]
      simp [List.contains, hne]

/-- Witness for C7 at a concrete store holding one record for company 7 and
one for company 8, calling with scope 7. -/
theorem claim_C7_frame_witness :
    (Company.mk 7).id ≠ (Company.mk 8).id ∧
    ((Store.mk [⟨1, [("company_id", 7)]⟩, ⟨2, [("company_id", 8)]⟩] 3 []).records.map
        SRecord.rid).Nodup ∧
    (∀ (j : Nat) (r : SRecord),
      (Store.mk [⟨1, [("company_id", 7)]⟩, ⟨2, [("company_id", 8)]⟩] 3 []).records[j]?
        = some r →
      (getField r.fields "company_id" = some (Company.mk 8).id ∨
        getField r.fields "company_id" ≠ some (Company.mk 7).id) →
      (set_settings ⟨[⟨1, [("company_id", 7)]⟩, ⟨2, [("company_id", 8)]⟩], 3, []⟩
          [("x", 5)] (some ⟨7⟩)).2.1.records[j]? = some r) :=
  ⟨by decide, by decide,
   claim_C7_frame ⟨[⟨1, [("company_id", 7)]⟩, ⟨2, [("company_id", 8)]⟩], 3, []⟩
     [("x", 5)] ⟨7⟩ ⟨8⟩ (by decide) (by decide)⟩

end Confutil

namespace Confutil

/-- C4: for every scope and changes dictionary (unique keys, as a Python
dict): if no settings record exists for the scope, set_settings creates
exactly one new record whose field values are the model defaults overlaid
by changes, with changes winning on overlapping field names (except that
the scope key company_id is set to the scope identifier when a scope is
given, see C10); if exactly one record exists, set_settings succeeds,
creates no record, and writes exactly the fields named in changes to that
record while every other field of it, and every other record, keeps its
prior value. -/
theorem claim_C4_upsert_field_values (st : Store) (changes : Fields)
    (company : Option Company)
    (hch : (changes.map Prod.fst).Nodup) :
    (searchStore st (mkDomain company) = [] →
      ∃ r : SRecord,
        (set_settings st changes company).2.1.records = st.records ++ [r] ∧
        (∀ c, company = some c → getField r.fields "company_id" = some c.id) ∧
        (∀ k, (company = none ∨ k ≠ "company_id") →
          (∀ v, getField changes k = some v → getField r.fields k = some v) ∧
          (getField changes k = none →
            getField r.fields k = getField st.defaults k))) ∧
    (∀ i, searchStore st (mkDomain company) = [i] →
      (set_settings st changes company).1 = Except.ok () ∧
      (set_settings st changes company).2.1.records.length = st.records.length ∧
      (∀ (j : Nat) (r : SRecord), st.records[j]? = some r →
        (r.rid ≠ i → (set_settings st changes company).2.1.records[j]? = some r) ∧
        (r.rid = i → ∃ f2 : Fields,
          (set_settings st changes company).2.1.records[j]? = some ⟨r.rid, f2⟩ ∧
          (∀ k v, getField changes k = some v → getField f2 k = some v) ∧
          (∀ k, getField changes k = none →
            getField f2 k = getField r.fields k)))) := by
  constructor
  · intro habs
    have hm : get_maybe_id (storeModel st) (mkDomain company) = Except.ok none := by
      simp [get_maybe_id, storeModel, habs]
    rcases company with _ | c
    · refine ⟨⟨st.nextId, updateFields st.defaults changes⟩, ?_, ?_, ?_⟩
      · simp [set_settings, hm, create_rec]
      · intro c hc
        cases hc
      · intro k _
        refine ⟨fun v hv => getField_updateFields_some changes _ k v hch hv, fun hn => ?_⟩
        exact getField_updateFields_notMem changes _ k ((getField_eq_none_iff changes k).mp hn)
    · refine ⟨⟨st.nextId, setField (updateFields st.defaults changes) "company_id" c.id⟩,
        ?_, ?_, ?_⟩
      · simp [set_settings, hm, create_rec]
      · intro c2 hc2
        cases hc2
        exact getField_setField_self _ _ _
      · intro k hk
        have hkne : k ≠ "company_id" := by
          rcases hk with h | h
          · cases h
          · exact h
        have hstep : getField (setField (updateFields st.defaults changes) "company_id" c.id) k
            = getField (updateFields st.defaults changes) k :=
          getField_setField_ne _ _ _ _ (Ne.symm hkne)
        refine ⟨fun v hv => ?_, fun hn => ?_⟩
        · rw [hstep]
          exact getField_updateFields_some changes _ k v hch hv
        · rw [hstep]
          exact getField_updateFields_notMem changes _ k ((getField_eq_none_iff changes k).mp hn)
  · intro i hs
    have hm : get_maybe_id (storeModel st) (mkDomain company) = Except.ok (some i) := by
      simp [get_maybe_id, storeModel, hs]
    have hrec : (set_settings st changes company).2.1.records
        = st.records.map (fun rr => if ([i] : List Nat).contains rr.rid
            then ⟨rr.rid, updateFields rr.fields changes⟩ else rr) := by
      simp [set_settings, hm, write_rec]
    refine ⟨by simp [set_settings, hm], by rw [hrec, List.length_map], ?_⟩
    intro j r hj
    constructor
    · intro hne
      rw [hrec, List.getElem?_map, hj]
      simp [List.contains, hne]
    · intro heq
      refine ⟨updateFields r.fields changes, ?_, ?_, ?_⟩
      · rw [hrec, List.getElem?_map, hj]
        simp [List.contains, heq]
      · exact fun k v hv => getField_updateFields_some changes _ k v hch hv
      · exact fun k hn =>
          getField_updateFields_notMem changes _ k ((getField_eq_none_iff changes k).mp hn)

end Confutil

namespace Confutil

/-- Witness for C4 at a concrete store holding one record for company 7. -/
theorem claim_C4_upsert_field_values_witness :
    ((([("b", 9)] : Fields).map Prod.fst).Nodup) ∧
    ((searchStore ⟨[⟨1, [("a", 1), ("company_id", 7)]⟩], 2, [("a", 0), ("b", 2)]⟩
        (mkDomain (some ⟨7⟩)) = [] →
      ∃ r : SRecord,
        (set_settings ⟨[⟨1, [("a", 1), ("company_id", 7)]⟩], 2, [("a", 0), ("b", 2)]⟩
            [("b", 9)] (some ⟨7⟩)).2.1.records
          = (Store.mk [⟨1, [("a", 1), ("company_id", 7)]⟩] 2 [("a", 0), ("b", 2)]).records
            ++ [r] ∧
        (∀ c, (some (Company.mk 7) : Option Company) = some c →
          getField r.fields "company_id" = some c.id) ∧
        (∀ k, ((some (Company.mk 7) : Option Company) = none ∨ k ≠ "company_id") →
          (∀ v, getField [("b", 9)] k = some v → getField r.fields k = some v) ∧
          (getField [("b", 9)] k = none →
            getField r.fields k = getField [("a", 0), ("b", 2)] k))) ∧
    (∀ i, searchStore ⟨[⟨1, [("a", 1), ("company_id", 7)]⟩], 2, [("a", 0), ("b", 2)]⟩
        (mkDomain (some ⟨7⟩)) = [i] →
      (set_settings ⟨[⟨1, [("a", 1), ("company_id", 7)]⟩], 2, [("a", 0), ("b", 2)]⟩
          [("b", 9)] (some ⟨7⟩)).1 = Except.ok () ∧
      (set_settings ⟨[⟨1, [("a", 1), ("company_id", 7)]⟩], 2, [("a", 0), ("b", 2)]⟩
          [("b", 9)] (some ⟨7⟩)).2.1.records.length
        = (Store.mk [⟨1, [("a", 1), ("company_id", 7)]⟩] 2 [("a", 0), ("b", 2)]).records.length ∧
      (∀ (j : Nat) (r : SRecord),
        (Store.mk [⟨1, [("a", 1), ("company_id", 7)]⟩] 2 [("a", 0), ("b", 2)]).records[j]?
          = some r →
        (r.rid ≠ i →
          (set_settings ⟨[⟨1, [("a", 1), ("company_id", 7)]⟩], 2, [("a", 0), ("b", 2)]⟩
              [("b", 9)] (some ⟨7⟩)).2.1.records[j]? = some r) ∧
        (r.rid = i → ∃ f2 : Fields,
          (set_settings ⟨[⟨1, [("a", 1), ("company_id", 7)]⟩], 2, [("a", 0), ("b", 2)]⟩
              [("b", 9)] (some ⟨7⟩)).2.1.records[j]? = some ⟨r.rid, f2⟩ ∧
          (∀ k v, getField [("b", 9)] k = some v → getField f2 k = some v) ∧
          (∀ k, getField [("b", 9)] k = none →
            getField f2 k = getField r.fields k))))) :=
  ⟨by decide,
   claim_C4_upsert_field_values
     ⟨[⟨1, [("a", 1), ("company_id", 7)]⟩], 2, [("a", 0), ("b", 2)]⟩
     [("b", 9)] (some ⟨7⟩) (by decide)⟩

end Confutil

namespace Confutil

theorem filter_eq_single_of_unique {α : Type} (l : List α) (q : α → Bool) (r0 : α)
    (hnd : l.Nodup) (hmem : r0 ∈ l) (hq0 : q r0 = true)
    (hother : ∀ r ∈ l, r ≠ r0 → q r = false) :
    l.filter q = [r0] := by
  induction l with
  | nil => simp at hmem
  | cons a rest ih =>
    rw [List.nodup_cons] at hnd
    rcases List.mem_cons.mp hmem with h | h
    · subst h
      rw [List.filter_cons_of_pos hq0]
      have hrest : rest.filter q = [] := by
        rw [List.filter_eq_nil_iff]
        intro r hr
        have hne : r ≠ r0 := fun he => hnd.1 (he ▸ hr)
        simp [hother r (List.mem_cons_of_mem r0 hr) hne]
      rw [hrest]
    · have hne : a ≠ r0 := fun he => hnd.1 (he ▸ h)
      rw [List.filter_cons_of_neg (by simp [hother a (List.mem_cons_self a rest) hne])]
      exact ih hnd.2 h fun r hr hr0 => hother r (List.mem_cons_of_mem a hr) hr0

theorem set_settings_settled (st1 : Store) (changes : Fields)
    (company : Option Company) (i : Nat)
    (h1 : searchStore st1 (mkDomain company) = [i])
    (hst : ∀ r ∈ st1.records, r.rid = i →
      ∀ kv ∈ changes, getField r.fields kv.1 = some kv.2) :
    (set_settings st1 changes company).1 = Except.ok () ∧
    (set_settings st1 changes company).2.1 = st1 := by
  have hm : get_maybe_id (storeModel st1) (mkDomain company) = Except.ok (some i) := by
    simp [get_maybe_id, storeModel, h1]
  refine ⟨by simp [set_settings, hm], ?_⟩
  have hw : (set_settings st1 changes company).2.1 = write_rec st1 [i] changes := by
    simp [set_settings, hm]
  rw [hw]
  have hrecords : st1.records.map (fun r =>
      if ([i] : List Nat).contains r.rid
      then ⟨r.rid, updateFields r.fields changes⟩ else r) = st1.records := by
    conv_rhs => rw [← List.map_id st1.records]
    apply List.map_congr_left
    intro r hr
    by_cases hri : r.rid = i
    · have hupd : updateFields r.fields changes = r.fields :=
        updateFields_eq_self changes r.fields (hst r hr hri)
      have hcont : ([i] : List Nat).contains r.rid = true := by simp [List.contains, hri]
      rw [if_pos hcont, hupd]
      rfl
    · have hcont : ¬ ([i] : List Nat).contains r.rid = true := by simp [List.contains, hri]
      rw [if_neg hcont]
      rfl
  unfold write_rec
  rw [hrecords]

end Confutil

namespace Confutil

theorem create_branch_settled_none (st : Store) (changes : Fields)
    (hch : (changes.map Prod.fst).Nodup)
    (hfresh : ∀ r ∈ st.records, r.rid < st.nextId)
    (hs : searchStore st (mkDomain none) = []) :
    searchStore (set_settings st changes none).2.1 (mkDomain none) = [st.nextId] ∧
    ∀ r ∈ (set_settings st changes none).2.1.records, r.rid = st.nextId →
      ∀ kv ∈ changes, getField r.fields kv.1 = some kv.2 := by
  have hm : get_maybe_id (storeModel st) (mkDomain none) = Except.ok none := by
    simp [get_maybe_id, storeModel, hs]
  have hst1 : (set_settings st changes none).2.1
      = ⟨st.records ++ [⟨st.nextId, updateFields st.defaults changes⟩],
         st.nextId + 1, st.defaults⟩ := by
    simp [set_settings, hm, create_rec]
  rw [hst1]
  constructor
  · unfold searchStore
    simp only [List.filter_append, searchStore_filter_nil st _ hs, List.nil_append]
    simp [matchesDomain, mkDomain]
  · intro r hr hri kv hkv
    simp only [List.mem_append, List.mem_singleton] at hr
    rcases hr with h | h
    · exact absurd hri (Nat.ne_of_lt (hfresh r h))
    · subst h
      exact getField_updateFields_some changes _ kv.1 kv.2 hch
        (getField_mem_nodup changes kv hch hkv)

theorem create_branch_settled_some (st : Store) (changes : Fields) (c : Company)
    (hch : (changes.map Prod.fst).Nodup)
    (hfresh : ∀ r ∈ st.records, r.rid < st.nextId)
    (hsc : scopeConsistent (some c) changes)
    (hs : searchStore st (mkDomain (some c)) = []) :
    searchStore (set_settings st changes (some c)).2.1 (mkDomain (some c)) = [st.nextId] ∧
    ∀ r ∈ (set_settings st changes (some c)).2.1.records, r.rid = st.nextId →
      ∀ kv ∈ changes, getField r.fields kv.1 = some kv.2 := by
  have hm : get_maybe_id (storeModel st) (mkDomain (some c)) = Except.ok none := by
    simp [get_maybe_id, storeModel, hs]
  have hst1 : (set_settings st changes (some c)).2.1
      = ⟨st.records
          ++ [⟨st.nextId, setField (updateFields st.defaults changes) "company_id" c.id⟩],
         st.nextId + 1, st.defaults⟩ := by
    simp [set_settings, hm, create_rec]
  rw [hst1]
  have hmatch : matchesDomain
      (setField (updateFields st.defaults changes) "company_id" c.id)
      [("company_id", c.id)] = true :=
    (matchesDomain_single _ _ _).mpr (getField_setField_self _ _ _)
  constructor
  · unfold searchStore
    simp only [List.filter_append, searchStore_filter_nil st _ hs, List.nil_append]
    simp [mkDomain, hmatch]
  · intro r hr hri kv hkv
    simp only [List.mem_append, List.mem_singleton] at hr
    rcases hr with h | h
    · exact absurd hri (Nat.ne_of_lt (hfresh r h))
    · subst h
      have hv : getField changes kv.1 = some kv.2 :=
        getField_mem_nodup changes kv hch hkv
      by_cases hkc : kv.1 = "company_id"
      · have hc2 : kv.2 = c.id := hsc c rfl kv.2 (by rw [← hkc]; exact hv)
        rw [hkc, hc2]
        exact getField_setField_self _ _ _
      · rw [getField_setField_ne _ _ _ _ (Ne.symm hkc)]
        exact getField_updateFields_some changes _ kv.1 kv.2 hch hv

theorem write_branch_settled (st : Store) (changes : Fields)
    (company : Option Company) (i : Nat)
    (hch : (changes.map Prod.fst).Nodup)
    (hrid : (st.records.map SRecord.rid).Nodup)
    (hsc : scopeConsistent company changes)
    (hs : searchStore st (mkDomain company) = [i]) :
    searchStore (set_settings st changes company).2.1 (mkDomain company) = [i] ∧
    ∀ r ∈ (set_settings st changes company).2.1.records, r.rid = i →
      ∀ kv ∈ changes, getField r.fields kv.1 = some kv.2 := by
  have hm : get_maybe_id (storeModel st) (mkDomain company) = Except.ok (some i) := by
    simp [get_maybe_id, storeModel, hs]
  obtain ⟨r0, hr0mem, hr0rid, hr0match, hr0uniq⟩ := searchStore_single st _ i hs
  have hst1 : (set_settings st changes company).2.1 = write_rec st [i] changes := by
    simp [set_settings, hm]
  have hgmatch : matchesDomain (updateFields r0.fields changes) (mkDomain company) = true := by
    rcases company with _ | c
    · simp [matchesDomain, mkDomain]
    · rw [show mkDomain (some c) = [("company_id", c.id)] from rfl]
      refine (matchesDomain_single _ _ _).mpr ?_
      rcases hcid : getField changes "company_id" with _ | v
      · rw [getField_updateFields_notMem changes _ _
          ((getField_eq_none_iff changes _).mp hcid)]
        exact (matchesDomain_single _ _ _).mp
          (by rw [show mkDomain (some c) = [("company_id", c.id)] from rfl] at hr0match
              exact hr0match)
      · have hv : v = c.id := hsc c rfl v hcid
        rw [getField_updateFields_some changes _ _ v hch hcid, hv]
  have hg0 : (if ([i] : List Nat).contains r0.rid
      then (⟨r0.rid, updateFields r0.fields changes⟩ : SRecord) else r0)
      = ⟨r0.rid, updateFields r0.fields changes⟩ := by
    simp [List.contains, hr0rid]
  have hq0 : ((fun r => matchesDomain r.fields (mkDomain company))
      ∘ (fun r => if ([i] : List Nat).contains r.rid
          then (⟨r.rid, updateFields r.fields changes⟩ : SRecord) else r)) r0 = true := by
    simp only [Function.comp_apply, hg0]
    exact hgmatch
  have hother : ∀ r ∈ st.records, r ≠ r0 →
      ((fun r => matchesDomain r.fields (mkDomain company))
      ∘ (fun r => if ([i] : List Nat).contains r.rid
          then (⟨r.rid, updateFields r.fields changes⟩ : SRecord) else r)) r = false := by
    intro r hr hne
    have hrne : r.rid ≠ i := by
      intro hri
      exact hne (List.inj_on_of_nodup_map hrid hr hr0mem (by rw [hri, hr0rid]))
    have hgr : (if ([i] : List Nat).contains r.rid
        then (⟨r.rid, updateFields r.fields changes⟩ : SRecord) else r) = r := by
      simp [List.contains, hrne]
    simp only [Function.comp_apply, hgr]
    by_contra hb
    exact hne (hr0uniq r hr (by simpa using hb))
  have hfil : st.records.filter
      ((fun r => matchesDomain r.fields (mkDomain company))
      ∘ (fun r => if ([i] : List Nat).contains r.rid
          then (⟨r.rid, updateFields r.fields changes⟩ : SRecord) else r)) = [r0] :=
    filter_eq_single_of_unique _ _ r0 (hrid.of_map) hr0mem hq0 hother
  rw [hst1]
  constructor
  · unfold searchStore write_rec
    rw [List.filter_map, hfil]
    simp [hg0, hr0rid]
  · intro r hr hri kv hkv
    simp only [write_rec, List.mem_map] at hr
    obtain ⟨r1, hr1mem, hr1eq⟩ := hr
    have hrid_pres : r.rid = r1.rid := by
      rw [← hr1eq]
      split
      · rfl
      · rfl
    have hr1i : r1.rid = i := by
      rw [← hrid_pres]
      exact hri
    have hr10 : r1 = r0 :=
      List.inj_on_of_nodup_map hrid hr1mem hr0mem (by rw [hr1i, hr0rid])
    have hcont : ([i] : List Nat).contains r1.rid = true := by
      simp [List.contains, hr1i]
    rw [← hr1eq, if_pos hcont]
    exact getField_updateFields_some changes _ kv.1 kv.2 hch
      (getField_mem_nodup changes kv hch hkv)

end Confutil

namespace Confutil

/-- C6 (amended): set_settings is idempotent provided that, when a scope is
given, the changes dictionary does not bind company_id to a value different
from the scope identifier.  Starting from any well-formed store (unique
record identifiers below the fresh counter) with at most one settings
record for the scope, the second of two identical calls succeeds and leaves
the store exactly as the first call left it, so it yields the same final
record state for the scope and creates no second record. -/
theorem claim_C6_amended_idempotent (st : Store) (changes : Fields)
    (company : Option Company)
    (hch : (changes.map Prod.fst).Nodup)
    (hrid : (st.records.map SRecord.rid).Nodup)
    (hfresh : ∀ r ∈ st.records, r.rid < st.nextId)
    (hsc : scopeConsistent company changes)
    (hone : (searchStore st (mkDomain company)).length ≤ 1) :
    (set_settings (set_settings st changes company).2.1 changes company).1
      = Except.ok () ∧
    (set_settings (set_settings st changes company).2.1 changes company).2.1
      = (set_settings st changes company).2.1 := by
  rcases hs : searchStore st (mkDomain company) with _ | ⟨i, rest⟩
  · rcases company with _ | c
    · obtain ⟨h1, h2⟩ := create_branch_settled_none st changes hch hfresh hs
      exact set_settings_settled _ changes none st.nextId h1 h2
    · obtain ⟨h1, h2⟩ := create_branch_settled_some st changes c hch hfresh hsc hs
      exact set_settings_settled _ changes (some c) st.nextId h1 h2
  · rcases rest with _ | ⟨b, rest2⟩
    · obtain ⟨h1, h2⟩ := write_branch_settled st changes company i hch hrid hsc hs
      exact set_settings_settled _ changes company i h1 h2
    · rw [hs] at hone
      simp at hone

/-- Counterexample to C6 as stated: with scope company 7 and a changes
dictionary binding company_id to 99, starting from the empty store (which
has at most one record for the scope), the first call creates the record
with company_id 7 (the scope override), but the second call takes the write
branch and writes company_id 99 over it, so calling set_settings twice does
not yield the final record state that calling it once yields. -/
theorem claim_C6_counterexample :
    (searchStore ⟨[], 0, []⟩ (mkDomain (some ⟨7⟩))).length ≤ 1 ∧
    (([("company_id", 99)] : Fields).map Prod.fst).Nodup ∧
    (set_settings (set_settings ⟨[], 0, []⟩ [("company_id", 99)] (some ⟨7⟩)).2.1
        [("company_id", 99)] (some ⟨7⟩)).2.1.records
      ≠ (set_settings ⟨[], 0, []⟩ [("company_id", 99)] (some ⟨7⟩)).2.1.records := by
  refine ⟨by decide, by decide, by decide⟩

/-- Witness for the amended C6 at a concrete empty store, scope company 7
and changes not touching company_id. -/
theorem claim_C6_amended_idempotent_witness :
    ((([("b", 2)] : Fields).map Prod.fst).Nodup) ∧
    scopeConsistent (some ⟨7⟩) [("b", 2)] ∧
    ((set_settings (set_settings ⟨[], 0, [("a", 1)]⟩ [("b", 2)] (some ⟨7⟩)).2.1
        [("b", 2)] (some ⟨7⟩)).1 = Except.ok () ∧
     (set_settings (set_settings ⟨[], 0, [("a", 1)]⟩ [("b", 2)] (some ⟨7⟩)).2.1
        [("b", 2)] (some ⟨7⟩)).2.1
      = (set_settings ⟨[], 0, [("a", 1)]⟩ [("b", 2)] (some ⟨7⟩)).2.1) :=
  ⟨by decide,
   by
     intro c hc v hv
     simp [getField] at hv,
   claim_C6_amended_idempotent ⟨[], 0, [("a", 1)]⟩ [("b", 2)] (some ⟨7⟩)
     (by decide) (by decide) (by simp) (by intro c hc v hv; simp [getField] at hv)
     (by decide)⟩

end Confutil
